import Mathlib

set_option maxRecDepth 8000

/-! Shallow embedding of `scripts/claude_stream_pretty.py`, a line-oriented
pretty-printer for newline-delimited JSON event records.  Python strings are
modelled as lists of characters (`Str`), standard output as the string of
characters written so far, and code that can raise an uncaught Python
exception returns an `Except` value carrying the exception kind together with
the state at the point of the raise.  Loops that are not structurally
recursive are written with an explicit fuel argument that is always supplied
large enough (the `while` loop of `on_text_delta` removes one newline per
iteration, so `length + 1` iterations always suffice; the JSON parser
consumes at least one input character for every few fuel units spent). -/

abbrev Str := List Char

/-- Test whether a character occurs in a string, modelling Python `c in s`. -/
def containsC (c : Char) : Str → Bool
  | [] => false
  | x :: xs => if x = c then true else containsC c xs

/-- Value of Python `s.split(c, 1)` when `c` occurs in `s`: the part before
the first occurrence of `c` and the part after it. -/
def splitOnce (c : Char) : Str → Str × Str
  | [] => ([], [])
  | x :: xs =>
      if x = c then ([], xs)
      else
        let q := splitOnce c xs
        (x :: q.1, q.2)

/-- Value of Python `s.split(c)`: the maximal run-free pieces of `s` between
occurrences of `c`.  The result is always non-empty; the last element is the
text after the final occurrence of `c`. -/
def splitChar (c : Char) : Str → List Str
  | [] => [[]]
  | x :: xs =>
      match splitChar c xs with
      | [] => []
      | h :: t => if x = c then [] :: h :: t else (x :: h) :: t

/-- Last element of a list of strings, with `[]` for an empty list. -/
def lastElem : List Str → Str
  | [] => []
  | [x] => x
  | _ :: x :: xs => lastElem (x :: xs)

/-- Concatenation of a list of lines, each terminated with a newline. -/
def linesJoin : List Str → Str
  | [] => []
  | l :: ls => l ++ '\n' :: linesJoin ls

/-- Number of newline characters in a string. -/
def countNl : Str → Nat
  | [] => 0
  | x :: xs => (if x = '\n' then 1 else 0) + countNl xs

/-- Concatenation of a list of strings. -/
def concatAll : List Str → Str
  | [] => []
  | s :: ss => s ++ concatAll ss

/-- Characters stripped by Python `str.strip()` (the ASCII whitespace ones;
the exotic Unicode space characters are not modelled). -/
def isPyWs (c : Char) : Bool :=
  c = ' ' || c = '\t' || c = '\n' || c = '\r' || c = '\x0b' || c = '\x0c'

/-- Python `s.strip()`. -/
def pyStripWs (s : Str) : Str :=
  ((s.dropWhile isPyWs).reverse.dropWhile isPyWs).reverse

/-- Python `s.rstrip("\n")`: remove trailing newline characters. -/
def pyRstripNl (s : Str) : Str :=
  (s.reverse.dropWhile (fun c => c = '\n')).reverse

/-- JSON values as produced by `json.loads`: `None`, booleans, numbers,
strings, lists and string-keyed dicts (insertion ordered, duplicate keys
collapsed with the last value winning, as in Python).  Numbers are modelled
as integers; float literals are outside the model. -/
inductive JVal where
  | null
  | bool (b : Bool)
  | num (n : Int)
  | str (s : Str)
  | arr (elems : List JVal)
  | obj (fields : List (Str × JVal))

/-- Python truthiness (`bool(v)`) of a decoded JSON value. -/
def truthy : JVal → Bool
  | .null => false
  | .bool b => b
  | .num n => n ≠ 0
  | .str s => !s.isEmpty
  | .arr l => !l.isEmpty
  | .obj f => !f.isEmpty

/-- Python `a or b` on decoded JSON values. -/
def pyOr (a b : JVal) : JVal := if truthy a then a else b

/-- Python `d.get(k)` on a decoded dict: the stored value, or `None` when the
key is absent. -/
def dictGet (d : List (Str × JVal)) (k : Str) : JVal :=
  match d with
  | [] => JVal.null
  | (k', v) :: rest => if k' = k then v else dictGet rest k

/-- Dict insertion `d[k] = v` as Python performs it while decoding JSON
objects: an existing key keeps its position and receives the new value. -/
def insertKey (d : List (Str × JVal)) (k : Str) (v : JVal) : List (Str × JVal) :=
  match d with
  | [] => [(k, v)]
  | (k', v') :: rest => if k' = k then (k', v) :: rest else (k', v') :: insertKey rest k v

/-- Embedding of `_get(d, *keys)` from the source: walk nested dicts and
return `None` as soon as a level is not a dict or lacks the key.  Returning
`JVal.null` for a missing key and then continuing the walk is extensionally
the same as the early `return None` of the source, because `null` is not a
dict. -/
def pyGet (v : JVal) : List Str → JVal
  | [] => v
  | k :: ks =>
      match v with
      | .obj d => pyGet (dictGet d k) ks
      | _ => JVal.null

/-- Test whether a decoded value is a Python string. -/
def isJStr : JVal → Bool
  | .str _ => true
  | _ => false

/-- Comparison `v == s` of a decoded value against a string literal, as the
dispatcher performs on the `type` discriminants.  A non-string value is never
equal to a string in Python. -/
def isStrEq (v : JVal) (s : Str) : Bool :=
  match v with
  | .str t => t = s
  | _ => false

/-- Elements obtained by Python `for x in v`: list elements, the characters
of a string (each a one-character string), or the keys of a dict.  `none`
models the `TypeError` raised for a non-iterable value. -/
def pyElems : JVal → Option (List JVal)
  | .arr l => some l
  | .str s => some (s.map (fun c => JVal.str [c]))
  | .obj f => some (f.map (fun kv => JVal.str kv.1))
  | _ => none

/-- Hexadecimal digit character for a value below 16. -/
def hexDigit (n : Nat) : Char :=
  if n < 10 then Char.ofNat (48 + n) else Char.ofNat (87 + n)

/-- Escaping of one character inside a JSON string as `json.dumps` performs
it with `ensure_ascii=False`: quote, backslash and control characters are
escaped, everything else is kept verbatim. -/
def jsonEscChar (c : Char) : Str :=
  if c = '"' then ['\\', '"']
  else if c = '\\' then ['\\', '\\']
  else if c = '\n' then ['\\', 'n']
  else if c = '\t' then ['\\', 't']
  else if c = '\r' then ['\\', 'r']
  else if c = '\x08' then ['\\', 'b']
  else if c = '\x0c' then ['\\', 'f']
  else if c.toNat < 0x20 then
    ['\\', 'u', '0', '0', hexDigit (c.toNat / 16), hexDigit (c.toNat % 16)]
  else [c]

/-- JSON string literal with surrounding quotes, as `json.dumps` writes it. -/
def jsonQuote (s : Str) : Str :=
  '"' :: (s.map jsonEscChar).flatten ++ ['"']

mutual

/-- Serialization of a decoded value by
`json.dumps(v, ensure_ascii=False, separators=(",", ":"))`.  This is the
`json.dumps` call of `_json_compact`; every decoded JSON value is
serializable, so the `except Exception` fallback to `repr(v)` in the source
is unreachable. -/
def dumps : JVal → Str
  | .null => "null".data
  | .bool true => "true".data
  | .bool false => "false".data
  | .num n => (toString n).data
  | .str s => jsonQuote s
  | .arr l => '[' :: dumpsElems l ++ [']']
  | .obj f => '\x7b' :: dumpsFields f ++ ['\x7d']

/-- Comma-separated serializations of the elements of a JSON array. -/
def dumpsElems : List JVal → Str
  | [] => []
  | [v] => dumps v
  | v :: w :: vs => dumps v ++ ',' :: dumpsElems (w :: vs)

/-- Comma-separated `"key":value` serializations of the fields of a JSON
object. -/
def dumpsFields : List (Str × JVal) → Str
  | [] => []
  | [kv] => jsonQuote kv.1 ++ ':' :: dumps kv.2
  | kv :: kw :: kvs => jsonQuote kv.1 ++ ':' :: dumps kv.2 ++ ',' :: dumpsFields (kw :: kvs)

end

/-- Python `repr` of a string: quoted with `'` (switching to `"` when the
text contains `'` but no `"`), with backslash, the quote character and the
common control characters escaped.  Non-printable escaping of other exotic
characters is approximated by emitting them verbatim. -/
def pyStrRepr (s : Str) : Str :=
  let useDouble := containsC '\'' s && !containsC '"' s
  let q : Char := if useDouble then '"' else '\''
  let esc : Char → Str := fun c =>
    if c = '\\' then ['\\', '\\']
    else if c = q then ['\\', q]
    else if c = '\n' then ['\\', 'n']
    else if c = '\r' then ['\\', 'r']
    else if c = '\t' then ['\\', 't']
    else if c.toNat < 0x20 ∨ c.toNat = 0x7f then
      ['\\', 'x', hexDigit (c.toNat / 16), hexDigit (c.toNat % 16)]
    else [c]
  q :: (s.map esc).flatten ++ [q]

mutual

/-- Python `repr` of a decoded JSON value. -/
def pyRepr : JVal → Str
  | .null => "None".data
  | .bool true => "True".data
  | .bool false => "False".data
  | .num n => (toString n).data
  | .str s => pyStrRepr s
  | .arr l => '[' :: pyReprElems l ++ [']']
  | .obj f => '\x7b' :: pyReprFields f ++ ['\x7d']

/-- Comma-separated `repr`s of the elements of a list. -/
def pyReprElems : List JVal → Str
  | [] => []
  | [v] => pyRepr v
  | v :: w :: vs => pyRepr v ++ ',' :: ' ' :: pyReprElems (w :: vs)

/-- Comma-separated `key: value` `repr`s of the items of a dict. -/
def pyReprFields : List (Str × JVal) → Str
  | [] => []
  | [kv] => pyStrRepr kv.1 ++ ':' :: ' ' :: pyRepr kv.2
  | kv :: kw :: kvs => pyStrRepr kv.1 ++ ':' :: ' ' :: pyRepr kv.2 ++ ',' :: ' ' :: pyReprFields (kw :: kvs)

end

/-- Python `str(v)` of a decoded JSON value: the text itself for a string,
`repr` otherwise. -/
def pyStr (v : JVal) : Str :=
  match v with
  | .str s => s
  | _ => pyRepr v

/-- Python slice `s[:k]` for a possibly negative bound `k`. -/
def pySliceTo (s : Str) (k : Int) : Str :=
  if 0 ≤ k then s.take k.toNat else s.take ((s.length : Int) + k).toNat

/-- Embedding of `_truncate(s, n)` from the source: a string no longer than
`n` is returned unchanged, otherwise `s[: n - 1]` followed by the `…`
marker. -/
def pyTruncate (s : Str) (n : Int) : Str :=
  if (s.length : Int) ≤ n then s else pySliceTo s (n - 1) ++ ['…']

/-- Embedding of `_json_compact(v, max_len)`: compact serialization followed
by truncation to the configured limit. -/
def jsonCompact (v : JVal) (maxLen : Int) : Str :=
  pyTruncate (dumps v) maxLen

/-- State of the `Printer` class together with the text written to standard
output so far.  `buf` is the `_buf` text-buffer attribute, `tool_input_max`
the resolved `_tool_input_max` configuration value, and `out` models the
standard-output stream the `_println` helper writes to. -/
structure Printer where
  buf : Str
  out : Str
  tool_input_max : Int
deriving DecidableEq

/-- Effect of `_println(s)`: write `s` and a newline to standard output. -/
def Printer.println (p : Printer) (s : Str) : Printer :=
  { p with out := p.out ++ s ++ ['\n'] }

/-- Embedding of `Printer.flush`: a non-empty buffer is emitted as one line
and cleared; an empty buffer is left alone. -/
def Printer.flush (p : Printer) : Printer :=
  if p.buf = [] then p else { p with buf := [], out := p.out ++ p.buf ++ ['\n'] }

/-- The `while "\n" in self._buf` loop of `on_text_delta`, with fuel: split
off the text before the first newline, emit it as a line, and repeat.  Each
iteration removes one newline, so any fuel exceeding the newline count makes
the fuel bound irrelevant. -/
def drainLoop : Nat → Printer → Printer
  | 0, p => p
  | fuel + 1, p =>
      if containsC '\n' p.buf then
        let q := splitOnce '\n' p.buf
        drainLoop fuel { p with buf := q.2, out := p.out ++ q.1 ++ ['\n'] }
      else p

/-- Embedding of `Printer.on_text_delta`: append the fragment to the buffer,
then emit every complete line. -/
def Printer.on_text_delta (p : Printer) (t : Str) : Printer :=
  drainLoop ((p.buf ++ t).length + 1) { p with buf := p.buf ++ t }

/-- Embedding of `Printer.on_tool_use`.  The `tool_id` argument is the raw
value taken from the record, so the `if tool_id` truthiness test and the
f-string interpolation are modelled on `JVal`.  A `None` (`JVal.null`)
payload suppresses the payload line. -/
def Printer.on_tool_use (p : Printer) (name : Str) (toolInput : JVal) (toolId : JVal) : Printer :=
  let p := Printer.flush p
  let suffix := if truthy toolId then " id=".data ++ pyStr toolId else []
  let p := p.println ('\n' :: ">>> tool_use ".data ++ name ++ suffix)
  match toolInput with
  | JVal.null => p
  | _ => p.println (jsonCompact toolInput p.tool_input_max)

/-- Embedding of `Printer.on_final_message`. -/
def Printer.on_final_message (p : Printer) (text : Str) : Printer :=
  let p := Printer.flush p
  if pyStripWs text = [] then p else p.println (pyRstripNl text)

/-- Embedding of `Printer.on_result`. -/
def Printer.on_result (p : Printer) (ok : Bool) (resultText : Str) : Printer :=
  let p := Printer.flush p
  let status := if ok then "success".data else "error".data
  let p := p.println ('\n' :: "=== ".data ++ status ++ " ===".data)
  if pyStripWs resultText = [] then p else p.println (pyRstripNl resultText)

/-- Characters skipped between JSON tokens. -/
def isJsonWs (c : Char) : Bool :=
  c = ' ' || c = '\t' || c = '\n' || c = '\r'

/-- Skip JSON inter-token whitespace. -/
def skipWs (s : Str) : Str := s.dropWhile isJsonWs

/-- Value of a hexadecimal digit character. -/
def hexVal (c : Char) : Option Nat :=
  if '0' ≤ c ∧ c ≤ '9' then some (c.toNat - 48)
  else if 'a' ≤ c ∧ c ≤ 'f' then some (c.toNat - 87)
  else if 'A' ≤ c ∧ c ≤ 'F' then some (c.toNat - 55)
  else none

/-- Body of a JSON string literal after the opening quote: accumulate
characters (processing the JSON escapes) until the closing quote.  Raw
control characters are rejected, as `json.loads` does in its default strict
mode.  A `\u` escape naming a surrogate code unit is not representable as a
character and is rejected (a model restriction; no claim involves one). -/
def parseStrBody : Nat → Str → Str → Option (Str × Str)
  | 0, _, _ => none
  | _ + 1, _, [] => none
  | fuel + 1, acc, c :: rest =>
      if c = '"' then some (acc.reverse, rest)
      else if c = '\\' then
        match rest with
        | [] => none
        | e :: rest2 =>
            if e = '"' then parseStrBody fuel ('"' :: acc) rest2
            else if e = '\\' then parseStrBody fuel ('\\' :: acc) rest2
            else if e = '/' then parseStrBody fuel ('/' :: acc) rest2
            else if e = 'b' then parseStrBody fuel ('\x08' :: acc) rest2
            else if e = 'f' then parseStrBody fuel ('\x0c' :: acc) rest2
            else if e = 'n' then parseStrBody fuel ('\n' :: acc) rest2
            else if e = 'r' then parseStrBody fuel ('\r' :: acc) rest2
            else if e = 't' then parseStrBody fuel ('\t' :: acc) rest2
            else if e = 'u' then
              match rest2 with
              | h1 :: h2 :: h3 :: h4 :: rest3 =>
                  match hexVal h1, hexVal h2, hexVal h3, hexVal h4 with
                  | some a, some b, some c2, some d =>
                      let n := ((a * 16 + b) * 16 + c2) * 16 + d
                      if 0xD800 ≤ n ∧ n ≤ 0xDFFF then none
                      else parseStrBody fuel (Char.ofNat n :: acc) rest3
                  | _, _, _, _ => none
              | _ => none
            else none
      else if c.toNat < 0x20 then none
      else parseStrBody fuel (c :: acc) rest

/-- Decimal digits consumed greedily into an accumulator. -/
def digitsTake : Str → Nat → Nat × Str
  | [], acc => (acc, [])
  | c :: rest, acc =>
      if c.isDigit then digitsTake rest (acc * 10 + (c.toNat - 48))
      else (acc, c :: rest)

/-- Unsigned part of a JSON number: `0`, or a nonzero digit followed by more
digits (JSON forbids leading zeros). -/
def parseNumCore : Str → Option (Int × Str)
  | [] => none
  | '0' :: rest => some (0, rest)
  | c :: rest =>
      if c.isDigit then
        let q := digitsTake rest (c.toNat - 48)
        some ((q.1 : Int), q.2)
      else none

/-- JSON integer numeral with optional leading minus.  A numeral continuing
with a fraction or exponent is a float; floats are outside the model and the
parse is rejected (a model restriction; no claim involves one). -/
def parseNum (s : Str) : Option (JVal × Str) :=
  let core :=
    match s with
    | '-' :: rest => (parseNumCore rest).map (fun q => (-q.1, q.2))
    | _ => parseNumCore s
  match core with
  | some (n, rest) =>
      match rest with
      | c :: _ => if c = '.' ∨ c = 'e' ∨ c = 'E' then none else some (JVal.num n, rest)
      | [] => some (JVal.num n, [])
  | none => none

/-- Match a literal at the front of the input, returning the remainder. -/
def litAt : Str → Str → Option Str
  | [], rest => some rest
  | _ :: _, [] => none
  | l :: ls, c :: cs => if c = l then litAt ls cs else none

mutual

/-- Recursive-descent parser for one JSON value, modelling `json.loads`
grammar (with the integer-numeral restriction of `parseNum`).  The fuel is
an upper bound on the recursion depth; `json_loads` supplies a fuel larger
than any derivation for its input can need. -/
def parseVal : Nat → Str → Option (JVal × Str)
  | 0, _ => none
  | fuel + 1, s =>
      match litAt "null".data s with
      | some rest => some (JVal.null, rest)
      | none =>
      match litAt "true".data s with
      | some rest => some (JVal.bool true, rest)
      | none =>
      match litAt "false".data s with
      | some rest => some (JVal.bool false, rest)
      | none =>
      match s with
      | '"' :: rest =>
          match parseStrBody (rest.length + 1) [] rest with
          | some (str, rest2) => some (JVal.str str, rest2)
          | none => none
      | '\x7b' :: rest =>
          (match skipWs rest with
           | '\x7d' :: rest2 => some (JVal.obj [], rest2)
           | r => parseMembers fuel r [])
      | '[' :: rest =>
          (match skipWs rest with
           | ']' :: rest2 => some (JVal.arr [], rest2)
           | r => parseItems fuel r [])
      | _ => parseNum s

/-- Members of a JSON object after the opening brace (non-empty case):
`"key" : value` pairs separated by commas, ended by a closing brace.
Duplicate keys are collapsed through `insertKey`, as Python dicts do. -/
def parseMembers : Nat → Str → List (Str × JVal) → Option (JVal × Str)
  | 0, _, _ => none
  | fuel + 1, s, acc =>
      match s with
      | '"' :: rest =>
          (match parseStrBody (rest.length + 1) [] rest with
           | some (key, rest2) =>
               (match skipWs rest2 with
                | ':' :: rest3 =>
                    (match parseVal fuel (skipWs rest3) with
                     | some (v, rest4) =>
                         (match skipWs rest4 with
                          | ',' :: rest5 => parseMembers fuel (skipWs rest5) (insertKey acc key v)
                          | '\x7d' :: rest5 => some (JVal.obj (insertKey acc key v), rest5)
                          | _ => none)
                     | none => none)
                | _ => none)
           | none => none)
      | _ => none

/-- Items of a JSON array after the opening bracket (non-empty case). -/
def parseItems : Nat → Str → List JVal → Option (JVal × Str)
  | 0, _, _ => none
  | fuel + 1, s, acc =>
      match parseVal fuel s with
      | some (v, rest) =>
          (match skipWs rest with
           | ',' :: rest2 => parseItems fuel (skipWs rest2) (acc ++ [v])
           | ']' :: rest2 => some (JVal.arr (acc ++ [v]), rest2)
           | _ => none)
      | none => none

end

/-- Embedding of `json.loads(s)`: parse one JSON value, allowing surrounding
whitespace and rejecting trailing garbage.  `none` models the decode
exception. -/
def json_loads (s : Str) : Option JVal :=
  match parseVal (4 * s.length + 16) (skipWs s) with
  | some (v, rest) => if skipWs rest = [] then some v else none
  | none => none

/-- Decidable equality of `Except` results, used to state concrete runs of
the dispatcher. -/
instance {ε α : Type} [DecidableEq ε] [DecidableEq α] : DecidableEq (Except ε α) := fun x y =>
  match x, y with
  | .ok a, .ok b =>
      if h : a = b then isTrue (by rw [h]) else isFalse (by intro he; cases he; exact h rfl)
  | .error a, .error b =>
      if h : a = b then isTrue (by rw [h]) else isFalse (by intro he; cases he; exact h rfl)
  | .ok _, .error _ => isFalse (by intro h; cases h)
  | .error _, .ok _ => isFalse (by intro h; cases h)

/-- Kinds of uncaught Python exception the dispatcher can raise. -/
inductive PyErr where
  | attributeError
  | typeError
deriving DecidableEq

/-- An uncaught exception together with the printer state (and hence the
standard output already written) at the point of the raise. -/
structure Crash where
  err : PyErr
  p : Printer
deriving DecidableEq

/-- Handling of one content block of an `assistant` record: non-dict blocks
are skipped; a `tool_use` block renders the tool invocation (with name
defaulted to `"unknown"`), a `text` block with truthy text renders the final
message.  This part of the loop body raises no exception. -/
def processBlock (st : Printer) (block : JVal) : Printer :=
  match block with
  | .obj bd =>
      let bt := dictGet bd "type".data
      if isStrEq bt "tool_use".data then
        st.on_tool_use (pyStr (pyOr (dictGet bd "name".data) (JVal.str "unknown".data)))
          (dictGet bd "input".data) (dictGet bd "id".data)
      else if isStrEq bt "text".data then
        let text := pyOr (dictGet bd "text".data) (JVal.str [])
        if truthy text then st.on_final_message (pyStr text) else st
      else st
  | _ => st

/-- Handling of a `stream_event` record: a `text_delta` with truthy text is
appended; `self._buf += t` raises `TypeError` when the truthy text value is
not a string. -/
def handleStreamEvent (st : Printer) (d : List (Str × JVal)) : Except Crash Printer :=
  let dt := pyGet (JVal.obj d) ["event".data, "delta".data, "type".data]
  if isStrEq dt "text_delta".data then
    let text := pyOr (pyGet (JVal.obj d) ["event".data, "delta".data, "text".data]) (JVal.str [])
    if truthy text then
      match text with
      | .str s => .ok (st.on_text_delta s)
      | _ => .error ⟨PyErr.typeError, st⟩
    else .ok st
  else .ok st

/-- Handling of an `assistant` record: `msg.get("content")` raises
`AttributeError` when a truthy `message` is not a dict, and `for block in
content` raises `TypeError` when a truthy `content` is not iterable. -/
def handleAssistant (st : Printer) (d : List (Str × JVal)) : Except Crash Printer :=
  match pyOr (dictGet d "message".data) (JVal.obj []) with
  | .obj md =>
      match pyElems (pyOr (dictGet md "content".data) (JVal.arr [])) with
      | some blocks => .ok (blocks.foldl processBlock st)
      | none => .error ⟨PyErr.typeError, st⟩
  | _ => .error ⟨PyErr.attributeError, st⟩

/-- Handling of a `result` record: the success flag is the negated
truthiness of `is_error`, the body text defaults to the empty string. -/
def handleResult (st : Printer) (d : List (Str × JVal)) : Printer :=
  st.on_result (!truthy (dictGet d "is_error".data))
    (pyStr (pyOr (dictGet d "result".data) (JVal.str [])))

/-- Dispatch of one decoded record: `obj.get("type")` raises
`AttributeError` when the decoded line is not a dict; recognized
discriminants are routed, every other record is ignored. -/
def handleObj (st : Printer) (obj : JVal) : Except Crash Printer :=
  match obj with
  | .obj d =>
      let t := dictGet d "type".data
      if isStrEq t "stream_event".data then handleStreamEvent st d
      else if isStrEq t "assistant".data then handleAssistant st d
      else if isStrEq t "result".data then .ok (handleResult st d)
      else .ok st
  | _ => .error ⟨PyErr.attributeError, st⟩

/-- Processing of one raw input line by the loop body of `main`: strip it,
skip it when blank, on decode failure flush pending text and print the
stripped line, otherwise dispatch the decoded record. -/
def processLine (st : Printer) (raw : Str) : Except Crash Printer :=
  let line := pyStripWs raw
  if line = [] then .ok st
  else
    match json_loads line with
    | none => .ok ((Printer.flush st).println line)
    | some obj => handleObj st obj

/-- The input loop of `main` over a list of raw lines. -/
def mainLoop (st : Printer) : List Str → Except Crash Printer
  | [] => .ok st
  | l :: ls =>
      match processLine st l with
      | .ok st' => mainLoop st' ls
      | .error e => .error e

/-- Embedding of `main()` for a resolved truncation limit: process every
line, perform the final flush, and return exit status 0.  An `error` result
models an uncaught exception escaping `main` (abnormal termination). -/
def mainRun (cfg : Int) (input : List Str) : Except Crash (Printer × Nat) :=
  match mainLoop ⟨[], [], cfg⟩ input with
  | .ok st => .ok (Printer.flush st, 0)
  | .error e => .error e

/-- Python `int(s)`: surrounding whitespace, an optional sign, and a
non-empty digit sequence in which single underscores may separate digits.
`none` models the `ValueError`. -/
def pyIntParse (s : Str) : Option Int :=
  match pyStripWs s with
  | '-' :: ds => (digitsUnder ds).map (fun n => -(n : Int))
  | '+' :: ds => (digitsUnder ds).map (fun n => (n : Int))
  | ds => (digitsUnder ds).map (fun n => (n : Int))
where
  digitsCore : Str → Nat → Option Nat
    | [], acc => some acc
    | '_' :: c :: rest, acc =>
        if c.isDigit then digitsCore rest (acc * 10 + (c.toNat - 48)) else none
    | c :: rest, acc =>
        if c.isDigit then digitsCore rest (acc * 10 + (c.toNat - 48)) else none
  digitsUnder : Str → Option Nat
    | [] => none
    | '_' :: _ => none
    | c :: rest => if c.isDigit then digitsCore rest (c.toNat - 48) else none

/-- Resolution of the truncation limit in `Printer.__init__`:
`int(os.getenv("CLAUDE_PRETTY_TOOL_INPUT_MAX", "800"))`.  The argument is
the environment override (`none` when the variable is unset); `error` models
the uncaught `ValueError` aborting the process at startup. -/
def resolveToolInputMax (env : Option Str) : Except Unit Int :=
  match pyIntParse ((env.getD "800".data)) with
  | some n => .ok n
  | none => .error ()

/-- The whole program: resolve the configuration at startup (constructing
the `Printer`), then run the main loop.  A startup `error` is the
configuration parse fault; an inner `error` is an uncaught exception during
stream processing. -/
def runProgram (env : Option Str) (input : List Str) : Except Unit (Except Crash (Printer × Nat)) :=
  match resolveToolInputMax env with
  | .ok cfg => .ok (mainRun cfg input)
  | .error _ => .error ()

/-- Shape conditions under which the dispatcher provably raises no
exception on a decoded record: the line decodes to a dict; in a
`stream_event` carrying a `text_delta`, a truthy `text` is a string; in an
`assistant` record, a truthy `message` is a dict and a truthy `content` is
iterable. -/
def safeObj (d : List (Str × JVal)) : Bool :=
  let t := dictGet d "type".data
  if isStrEq t "stream_event".data then
    let dt := pyGet (JVal.obj d) ["event".data, "delta".data, "type".data]
    if isStrEq dt "text_delta".data then
      let text := pyGet (JVal.obj d) ["event".data, "delta".data, "text".data]
      !truthy text || isJStr text
    else true
  else if isStrEq t "assistant".data then
    match pyOr (dictGet d "message".data) (JVal.obj []) with
    | .obj md => (pyElems (pyOr (dictGet md "content".data) (JVal.arr []))).isSome
    | _ => false
  else true

/-- Safety of one raw input line: it is blank, fails to decode, or decodes
to a dict satisfying `safeObj`. -/
def safeLine (raw : Str) : Bool :=
  match json_loads (pyStripWs raw) with
  | none => true
  | some (.obj d) => safeObj d
  | some _ => false

/-! Helper lemmas about the line-splitting primitives. -/

theorem splitOnce_snd_length_lt (c : Char) (s : Str) (h : containsC c s = true) :
    (splitOnce c s).2.length < s.length := by
  induction s with
  | nil => simp [containsC] at h
  | cons x xs ih =>
      by_cases hx : x = c
      · simp [splitOnce, hx]
      · simp only [containsC, if_neg hx] at h
        simp only [splitOnce, if_neg hx]
        have := ih h
        simp only [List.length_cons]
        omega

theorem countNl_splitOnce (s : Str) (h : containsC '\n' s = true) :
    countNl (splitOnce '\n' s).2 + 1 = countNl s := by
  induction s with
  | nil => simp [containsC] at h
  | cons x xs ih =>
      by_cases hx : x = '\n'
      · simp [splitOnce, countNl, hx]
        omega
      · simp only [containsC, if_neg hx] at h
        simp only [splitOnce, if_neg hx, countNl]
        have := ih h
        omega

theorem countNl_le_length (s : Str) : countNl s ≤ s.length := by
  induction s with
  | nil => simp [countNl]
  | cons x xs ih =>
      simp only [countNl, List.length_cons]
      split <;> omega

theorem splitChar_ne_nil (c : Char) (s : Str) : splitChar c s ≠ [] := by
  induction s with
  | nil => simp [splitChar]
  | cons x xs ih =>
      simp only [splitChar]
      cases h : splitChar c xs with
      | nil => exact absurd h ih
      | cons a t =>
          by_cases hx : x = c <;> simp [hx]

theorem splitChar_of_not_contains (c : Char) (s : Str) (h : containsC c s = false) :
    splitChar c s = [s] := by
  induction s with
  | nil => rfl
  | cons x xs ih =>
      by_cases hx : x = c
      · simp [containsC, hx] at h
      · simp only [containsC, if_neg hx] at h
        simp only [splitChar, ih h, if_neg hx]

theorem splitChar_of_contains (c : Char) (s : Str) (h : containsC c s = true) :
    splitChar c s = (splitOnce c s).1 :: splitChar c (splitOnce c s).2 := by
  induction s with
  | nil => simp [containsC] at h
  | cons x xs ih =>
      by_cases hx : x = c
      · simp only [splitChar, splitOnce, if_pos hx]
        cases hxs : splitChar c xs with
        | nil => exact absurd hxs (splitChar_ne_nil c xs)
        | cons a t => simp [hxs]
      · simp only [containsC, if_neg hx] at h
        simp only [splitChar, splitOnce, if_neg hx, ih h]

theorem lastElem_cons_of_ne_nil (x : Str) (l : List Str) (h : l ≠ []) :
    lastElem (x :: l) = lastElem l := by
  cases l with
  | nil => exact absurd rfl h
  | cons a t => rfl

theorem lastElem_append (xs ys : List Str) (h : ys ≠ []) :
    lastElem (xs ++ ys) = lastElem ys := by
  induction xs with
  | nil => rfl
  | cons x xs ih =>
      have hne : xs ++ ys ≠ [] := by
        intro he
        rcases List.append_eq_nil.mp he with ⟨-, h2⟩
        exact h h2
      rw [List.cons_append, lastElem_cons_of_ne_nil x (xs ++ ys) hne, ih]

theorem dropLast_cons_of_ne_nil {α : Type} (x : α) (l : List α) (h : l ≠ []) :
    (x :: l).dropLast = x :: l.dropLast := by
  cases l with
  | nil => exact absurd rfl h
  | cons a t => rfl

theorem dropLast_append_of_ne_nil {α : Type} (xs ys : List α) (h : ys ≠ []) :
    (xs ++ ys).dropLast = xs ++ ys.dropLast := by
  induction xs with
  | nil => rfl
  | cons x xs ih =>
      have hne : xs ++ ys ≠ [] := by
        intro he
        rcases List.append_eq_nil.mp he with ⟨-, h2⟩
        exact h h2
      rw [List.cons_append, dropLast_cons_of_ne_nil x (xs ++ ys) hne, ih, List.cons_append]

theorem linesJoin_append (a b : List Str) :
    linesJoin (a ++ b) = linesJoin a ++ linesJoin b := by
  induction a with
  | nil => rfl
  | cons x xs ih => simp [linesJoin, ih]

theorem lastElem_splitChar_no_nl :
    ∀ (n : Nat) (s : Str), s.length ≤ n →
      containsC '\n' (lastElem (splitChar '\n' s)) = false := by
  intro n
  induction n with
  | zero =>
      intro s hs
      have : s = [] := List.length_eq_zero.mp (Nat.le_zero.mp hs)
      subst this
      rfl
  | succ n ih =>
      intro s hs
      by_cases h : containsC '\n' s = true
      · rw [splitChar_of_contains '\n' s h,
          lastElem_cons_of_ne_nil _ _ (splitChar_ne_nil '\n' _)]
        have hlt := splitOnce_snd_length_lt '\n' s h
        exact ih _ (by omega)
      · rw [splitChar_of_not_contains '\n' s (Bool.not_eq_true _ ▸ h)]
        simpa [lastElem] using Bool.not_eq_true _ ▸ h

theorem splitChar_append (c : Char) (a b : Str) :
    splitChar c (a ++ b)
      = (splitChar c a).dropLast
          ++ splitChar c (lastElem (splitChar c a) ++ b) := by
  induction a with
  | nil => simp [splitChar, lastElem]
  | cons x a ih =>
      cases hab : splitChar c (a ++ b) with
      | nil => exact absurd hab (splitChar_ne_nil c (a ++ b))
      | cons h t =>
          cases ha : splitChar c a with
          | nil => exact absurd ha (splitChar_ne_nil c a)
          | cons h' t' =>
              by_cases hx : x = c
              · rw [List.cons_append]
                simp only [splitChar, hab, ha, if_pos hx]
                have hdrop : (([] : Str) :: h' :: t').dropLast
                    = [] :: (h' :: t').dropLast := by
                  rw [dropLast_cons_of_ne_nil]
                  simp
                have hlast : lastElem (([] : Str) :: h' :: t') = lastElem (h' :: t') := by
                  rw [lastElem_cons_of_ne_nil]
                  simp
                rw [hdrop, hlast, List.cons_append]
                rw [ha] at ih
                rw [← ih, hab]
              · rw [List.cons_append]
                simp only [splitChar, hab, ha, if_neg hx]
                cases t' with
                | nil =>
                    simp only [List.dropLast_single, List.nil_append, lastElem]
                    rw [ha] at ih
                    simp only [List.dropLast_single, List.nil_append, lastElem] at ih
                    rw [List.cons_append]
                    simp only [splitChar]
                    rw [← ih, hab]
                    simp [hx]
                | cons u t'' =>
                    have hdrop : ((x :: h') :: u :: t'').dropLast
                        = (x :: h') :: (u :: t'').dropLast := by
                      rw [dropLast_cons_of_ne_nil]
                      simp
                    have hlast : lastElem ((x :: h') :: u :: t'') = lastElem (u :: t'') := by
                      rw [lastElem_cons_of_ne_nil]
                      simp
                    rw [hdrop, hlast]
                    rw [ha] at ih
                    have hdrop2 : (h' :: u :: t'').dropLast = h' :: (u :: t'').dropLast := by
                      rw [dropLast_cons_of_ne_nil]
                      simp
                    have hlast2 : lastElem (h' :: u :: t'') = lastElem (u :: t'') := by
                      rw [lastElem_cons_of_ne_nil]
                      simp
                    rw [hdrop2, hlast2, List.cons_append] at ih
                    rw [hab] at ih
                    cases ih
                    rw [List.cons_append]

/-! Helper lemmas about the Printer operations. -/

theorem flush_buf (p : Printer) : (Printer.flush p).buf = [] := by
  unfold Printer.flush
  split
  · assumption
  · rfl

theorem flush_max (p : Printer) : (Printer.flush p).tool_input_max = p.tool_input_max := by
  unfold Printer.flush
  split <;> rfl

theorem drainLoop_eq :
    ∀ (fuel : Nat) (p : Printer), countNl p.buf < fuel →
      drainLoop fuel p
        = ⟨lastElem (splitChar '\n' p.buf),
           p.out ++ linesJoin ((splitChar '\n' p.buf).dropLast),
           p.tool_input_max⟩ := by
  intro fuel
  induction fuel with
  | zero => intro p hp; omega
  | succ fuel ih =>
      intro p hp
      by_cases h : containsC '\n' p.buf = true
      · simp only [drainLoop, h, if_true]
        have hcount := countNl_splitOnce p.buf h
        have := ih { p with buf := (splitOnce '\n' p.buf).2,
                            out := p.out ++ (splitOnce '\n' p.buf).1 ++ ['\n'] }
          (by simpa using (by omega : countNl (splitOnce '\n' p.buf).2 < fuel))
        rw [this]
        rw [splitChar_of_contains '\n' p.buf h]
        rw [lastElem_cons_of_ne_nil _ _ (splitChar_ne_nil '\n' _),
          dropLast_cons_of_ne_nil _ _ (splitChar_ne_nil '\n' _)]
        simp [linesJoin]
      · simp only [drainLoop, h, if_false]
        rw [splitChar_of_not_contains '\n' p.buf (by simpa using h)]
        simp [lastElem, linesJoin]

theorem on_text_delta_eq (p : Printer) (t : Str) :
    Printer.on_text_delta p t
      = ⟨lastElem (splitChar '\n' (p.buf ++ t)),
         p.out ++ linesJoin ((splitChar '\n' (p.buf ++ t)).dropLast),
         p.tool_input_max⟩ := by
  unfold Printer.on_text_delta
  refine drainLoop_eq _ _ ?_
  show countNl (p.buf ++ t) < (p.buf ++ t).length + 1
  have := countNl_le_length (p.buf ++ t)
  omega

theorem foldl_on_text_delta :
    ∀ (ts : List Str) (p : Printer), containsC '\n' p.buf = false →
      ts.foldl Printer.on_text_delta p
        = ⟨lastElem (splitChar '\n' (p.buf ++ concatAll ts)),
           p.out ++ linesJoin ((splitChar '\n' (p.buf ++ concatAll ts)).dropLast),
           p.tool_input_max⟩ := by
  intro ts
  induction ts with
  | nil =>
      intro p hp
      simp only [List.foldl_nil, concatAll, List.append_nil]
      rw [splitChar_of_not_contains '\n' p.buf hp]
      simp [lastElem, linesJoin]
  | cons t ts ih =>
      intro p hp
      simp only [List.foldl_cons]
      rw [on_text_delta_eq]
      rw [ih _ (lastElem_splitChar_no_nl (p.buf ++ t).length (p.buf ++ t) le_rfl)]
      simp only [concatAll]
      have hassoc : p.buf ++ (t ++ concatAll ts) = (p.buf ++ t) ++ concatAll ts := by
        simp [List.append_assoc]
      rw [hassoc, splitChar_append '\n' (p.buf ++ t) (concatAll ts)]
      have hT := splitChar_ne_nil '\n' (lastElem (splitChar '\n' (p.buf ++ t)) ++ concatAll ts)
      rw [lastElem_append _ _ hT, dropLast_append_of_ne_nil _ _ hT, linesJoin_append]
      simp [List.append_assoc]

/-! Helper lemmas showing the dispatcher raises no exception on records of
safe shape. -/

theorem handleStreamEvent_safe (st : Printer) (d : List (Str × JVal))
    (h : safeObj d = true)
    (ht : isStrEq (dictGet d "type".data) "stream_event".data = true) :
    ∃ st', handleStreamEvent st d = .ok st' := by
  by_cases hdt : isStrEq (pyGet (JVal.obj d) ["event".data, "delta".data, "type".data])
      "text_delta".data = true
  · by_cases hg : truthy (pyGet (JVal.obj d) ["event".data, "delta".data, "text".data]) = true
    · have hstr : isJStr (pyGet (JVal.obj d) ["event".data, "delta".data, "text".data]) = true := by
        simp only [safeObj, ht, if_true, hdt] at h
        simpa [hg] using h
      cases hgv : pyGet (JVal.obj d) ["event".data, "delta".data, "text".data] with
      | str s =>
          refine ⟨st.on_text_delta s, ?_⟩
          rw [hgv] at hg
          simp [handleStreamEvent, hdt, hgv, pyOr, hg]
      | null => rw [hgv] at hstr; simp [isJStr] at hstr
      | bool b => rw [hgv] at hstr; simp [isJStr] at hstr
      | num n => rw [hgv] at hstr; simp [isJStr] at hstr
      | arr l => rw [hgv] at hstr; simp [isJStr] at hstr
      | obj f => rw [hgv] at hstr; simp [isJStr] at hstr
    · have htext : pyOr (pyGet (JVal.obj d) ["event".data, "delta".data, "text".data])
          (JVal.str []) = JVal.str [] := by
        simp [pyOr, hg]
      refine ⟨st, ?_⟩
      simp [handleStreamEvent, hdt, htext, truthy]
  · exact ⟨st, by simp [handleStreamEvent, hdt]⟩

theorem handleAssistant_safe (st : Printer) (d : List (Str × JVal))
    (h : safeObj d = true)
    (h1 : isStrEq (dictGet d "type".data) "stream_event".data = false)
    (h2 : isStrEq (dictGet d "type".data) "assistant".data = true) :
    ∃ st', handleAssistant st d = .ok st' := by
  cases hm : pyOr (dictGet d "message".data) (JVal.obj []) with
  | obj md =>
      simp only [safeObj, h1, h2, hm, Bool.false_eq_true, if_false, if_true] at h
      obtain ⟨blocks, hb⟩ := Option.isSome_iff_exists.mp h
      exact ⟨blocks.foldl processBlock st, by simp [handleAssistant, hm, hb]⟩
  | null => simp only [safeObj, h1, h2, hm, Bool.false_eq_true, if_false, if_true] at h
  | bool b => simp only [safeObj, h1, h2, hm, Bool.false_eq_true, if_false, if_true] at h
  | num n => simp only [safeObj, h1, h2, hm, Bool.false_eq_true, if_false, if_true] at h
  | str s => simp only [safeObj, h1, h2, hm, Bool.false_eq_true, if_false, if_true] at h
  | arr l => simp only [safeObj, h1, h2, hm, Bool.false_eq_true, if_false, if_true] at h

theorem handleObj_safe (st : Printer) (d : List (Str × JVal)) (h : safeObj d = true) :
    ∃ st', handleObj st (JVal.obj d) = .ok st' := by
  by_cases h1 : isStrEq (dictGet d "type".data) "stream_event".data = true
  · obtain ⟨st', hs⟩ := handleStreamEvent_safe st d h h1
    exact ⟨st', by simp [handleObj, h1, hs]⟩
  · by_cases h2 : isStrEq (dictGet d "type".data) "assistant".data = true
    · obtain ⟨st', hs⟩ := handleAssistant_safe st d h (by simpa using h1) h2
      exact ⟨st', by simp [handleObj, h1, h2, hs]⟩
    · by_cases h3 : isStrEq (dictGet d "type".data) "result".data = true
      · exact ⟨handleResult st d, by simp [handleObj, h1, h2, h3]⟩
      · exact ⟨st, by simp [handleObj, h1, h2, h3]⟩

theorem processLine_safe (st : Printer) (raw : Str) (h : safeLine raw = true) :
    ∃ st', processLine st raw = .ok st' := by
  by_cases hb : pyStripWs raw = []
  · exact ⟨st, by simp [processLine, hb]⟩
  · cases hj : json_loads (pyStripWs raw) with
    | none => exact ⟨(Printer.flush st).println (pyStripWs raw), by simp [processLine, hb, hj]⟩
    | some v =>
        cases v with
        | obj d =>
            simp only [safeLine, hj] at h
            obtain ⟨st', hs⟩ := handleObj_safe st d h
            exact ⟨st', by simp [processLine, hb, hj, hs]⟩
        | null => simp [safeLine, hj] at h
        | bool b => simp [safeLine, hj] at h
        | num n => simp [safeLine, hj] at h
        | str s => simp [safeLine, hj] at h
        | arr l => simp [safeLine, hj] at h

theorem mainLoop_safe :
    ∀ (lines : List Str) (st : Printer), (∀ l ∈ lines, safeLine l = true) →
      ∃ st', mainLoop st lines = .ok st' := by
  intro lines
  induction lines with
  | nil => exact fun st _ => ⟨st, rfl⟩
  | cons l ls ih =>
      intro st h
      obtain ⟨st', hp⟩ := processLine_safe st l (h l (by simp))
      obtain ⟨st'', hs⟩ := ih st' (fun x hx => h x (by simp [hx]))
      exact ⟨st'', by simp [mainLoop, hp, hs]⟩

/-! Claim theorems. -/

/-- Claim C1: feeding any finite sequence of text-delta fragments to
append-text from a fresh printer writes to standard output exactly the
concatenation of the fragments split at newline characters, each emitted
line terminated with a newline; the final unterminated remainder is not
emitted but retained in the text buffer, and a subsequent flush emits
exactly that remainder (with a terminating newline) and nothing else. -/
theorem text_delta_stream_lines (cfg : Int) (ts : List Str) :
    (ts.foldl Printer.on_text_delta ⟨[], [], cfg⟩).out
      = linesJoin ((splitChar '\n' (concatAll ts)).dropLast)
    ∧ (ts.foldl Printer.on_text_delta ⟨[], [], cfg⟩).buf
      = lastElem (splitChar '\n' (concatAll ts))
    ∧ (Printer.flush (ts.foldl Printer.on_text_delta ⟨[], [], cfg⟩)).out
      = linesJoin ((splitChar '\n' (concatAll ts)).dropLast)
        ++ (if lastElem (splitChar '\n' (concatAll ts)) = [] then []
            else lastElem (splitChar '\n' (concatAll ts)) ++ ['\n']) := by
  have hf := foldl_on_text_delta ts ⟨[], [], cfg⟩ rfl
  rw [hf]
  refine ⟨by simp, rfl, ?_⟩
  by_cases hl : lastElem (splitChar '\n' (concatAll ts)) = [] <;>
    simp [Printer.flush, hl]

/-- Claim C7: after any completed printer operation the text buffer contains
no newline character: the flush-based renderers always leave it empty, and
append-text leaves exactly the text after the last emitted newline of the
accumulated input. -/
theorem printer_buffer_no_newline (p : Printer) (cfg : Int)
    (t text rtext name : Str) (input tid : JVal) (ok : Bool) :
    containsC '\n' ((⟨[], [], cfg⟩ : Printer)).buf = false
    ∧ containsC '\n' (Printer.on_text_delta p t).buf = false
    ∧ (Printer.flush p).buf = []
    ∧ (Printer.on_tool_use p name input tid).buf = []
    ∧ (Printer.on_final_message p text).buf = []
    ∧ (Printer.on_result p ok rtext).buf = []
    ∧ (Printer.on_text_delta p t).buf = lastElem (splitChar '\n' (p.buf ++ t)) := by
  refine ⟨rfl, ?_, flush_buf p, ?_, ?_, ?_, ?_⟩
  · rw [on_text_delta_eq]
    exact lastElem_splitChar_no_nl (p.buf ++ t).length (p.buf ++ t) le_rfl
  · cases input <;> simp [Printer.on_tool_use, Printer.println, flush_buf]
  · by_cases h : pyStripWs text = [] <;>
      simp [Printer.on_final_message, Printer.println, flush_buf, h]
  · by_cases h : pyStripWs rtext = [] <;>
      simp [Printer.on_result, Printer.println, flush_buf, h]
  · rw [on_text_delta_eq]

/-- Claim C9: flushing an empty buffer writes nothing and leaves the state
unchanged, and flushing twice is the same as flushing once on every printer
state. -/
theorem flush_empty_noop_idempotent (p : Printer) (o : Str) (cfg : Int) :
    Printer.flush ⟨[], o, cfg⟩ = ⟨[], o, cfg⟩
    ∧ Printer.flush (Printer.flush p) = Printer.flush p := by
  refine ⟨rfl, ?_⟩
  by_cases hb : p.buf = [] <;> simp [Printer.flush, hb]

/-- Claim C5: a `result` record computes the success flag as the negated
truthiness of its `is_error` field (absent or false gives success) and
renders through `on_result`, which first flushes pending text, then emits a
blank line followed by the `=== success ===` or `=== error ===` header, and
emits the result text stripped of trailing newlines only when it is
non-blank. -/
theorem result_flag_and_rendering (st : Printer) (d : List (Str × JVal))
    (h : dictGet d "type".data = JVal.str "result".data) :
    handleObj st (JVal.obj d)
      = .ok (Printer.on_result st (!truthy (dictGet d "is_error".data))
          (pyStr (pyOr (dictGet d "result".data) (JVal.str []))))
    ∧ truthy JVal.null = false
    ∧ truthy (JVal.bool false) = false
    ∧ (∀ (ok : Bool) (text : Str),
        Printer.on_result st ok text
          = ⟨[], (Printer.flush st).out
              ++ '\n' :: "=== ".data ++ (if ok then "success".data else "error".data)
              ++ " ===".data ++ ['\n']
              ++ (if pyStripWs text = [] then [] else pyRstripNl text ++ ['\n']),
             st.tool_input_max⟩) := by
  refine ⟨?_, rfl, rfl, ?_⟩
  · have e1 : isStrEq (dictGet d "type".data) "stream_event".data = false := by
      rw [h]; decide
    have e2 : isStrEq (dictGet d "type".data) "assistant".data = false := by
      rw [h]; decide
    have e3 : isStrEq (dictGet d "type".data) "result".data = true := by
      rw [h]; decide
    simp [handleObj, e1, e2, e3, handleResult]
  · intro ok text
    by_cases hb : pyStripWs text = [] <;>
      simp [Printer.on_result, Printer.println, hb, flush_buf, flush_max,
        Printer.mk.injEq, List.append_assoc]

/-- Witness for claim C5 at a concrete `result` record. -/
theorem result_flag_and_rendering_witness :
    dictGet [("type".data, JVal.str "result".data)] "type".data = JVal.str "result".data
    ∧ handleObj ⟨[], [], 800⟩ (JVal.obj [("type".data, JVal.str "result".data)])
        = .ok (Printer.on_result ⟨[], [], 800⟩
            (!truthy (dictGet [("type".data, JVal.str "result".data)] "is_error".data))
            (pyStr (pyOr (dictGet [("type".data, JVal.str "result".data)] "result".data)
              (JVal.str [])))) :=
  ⟨rfl, (result_flag_and_rendering ⟨[], [], 800⟩
    [("type".data, JVal.str "result".data)] rfl).1⟩

/-- Claim C3 (amended): a payload whose compact serialization is no longer
than the configured limit is emitted unmodified; one exceeding a limit of at
least 1 is emitted with length exactly the limit, namely the first
`limit - 1` characters of the serialization followed by the `…` marker; and
render-tool-use emits exactly that (possibly truncated) serialization as the
payload line for any non-`None` payload. -/
theorem tool_input_truncation (v : JVal) (limit : Int) :
    (((dumps v).length : Int) ≤ limit → jsonCompact v limit = dumps v)
    ∧ (1 ≤ limit → limit < ((dumps v).length : Int) →
        ((jsonCompact v limit).length : Int) = limit
        ∧ jsonCompact v limit = (dumps v).take (limit.toNat - 1) ++ ['…'])
    ∧ (∀ (st : Printer) (name : Str) (tid : JVal), v ≠ JVal.null →
        st.tool_input_max = limit →
        (Printer.on_tool_use st name v tid).out
          = (Printer.flush st).out
            ++ ('\n' :: ">>> tool_use ".data ++ name
                ++ (if truthy tid then " id=".data ++ pyStr tid else [])) ++ ['\n']
            ++ jsonCompact v limit ++ ['\n']) := by
  refine ⟨?_, ?_, ?_⟩
  · intro hle
    simp [jsonCompact, pyTruncate, hle]
  · intro h1 h2
    have hnot : ¬ ((dumps v).length : Int) ≤ limit := by omega
    have hk : (0 : Int) ≤ limit - 1 := by omega
    constructor
    · simp only [jsonCompact, pyTruncate, if_neg hnot, pySliceTo, if_pos hk]
      simp only [List.length_append, List.length_take, List.length_cons, List.length_nil]
      omega
    · simp only [jsonCompact, pyTruncate, if_neg hnot, pySliceTo, if_pos hk]
      have : (limit - 1).toNat = limit.toNat - 1 := by omega
      rw [this]
  · intro st name tid hv hmax
    cases v
    case null => exact absurd rfl hv
    all_goals
      simp [Printer.on_tool_use, Printer.println, flush_max, hmax, List.append_assoc]

/-- Counterexample to claim C3 as stated: with configured limit `0` the
serialization of `null` (length 4) exceeds the limit, yet the emitted
payload is `nul…`, whose length is 4 and not the limit. -/
theorem tool_input_truncation_cex :
    0 < (dumps JVal.null).length
    ∧ jsonCompact JVal.null 0 = "nul…".data
    ∧ ((jsonCompact JVal.null 0).length : Int) ≠ 0 := by decide

/-- Witness for the amended claim C3 at a concrete payload and limit 5. -/
theorem tool_input_truncation_witness :
    (((jsonCompact (JVal.str "abcdefgh".data) 5).length : Int) = 5
      ∧ jsonCompact (JVal.str "abcdefgh".data) 5
          = (dumps (JVal.str "abcdefgh".data)).take ((5 : Int).toNat - 1) ++ ['…'])
    ∧ (Printer.on_tool_use ⟨[], [], 5⟩ "t".data (JVal.str "abcdefgh".data) JVal.null).out
        = (Printer.flush ⟨[], [], 5⟩).out
          ++ ('\n' :: ">>> tool_use ".data ++ "t".data
              ++ (if truthy JVal.null then " id=".data ++ pyStr JVal.null else [])) ++ ['\n']
          ++ jsonCompact (JVal.str "abcdefgh".data) 5 ++ ['\n'] :=
  ⟨(tool_input_truncation (JVal.str "abcdefgh".data) 5).2.1 (by decide) (by decide),
   (tool_input_truncation (JVal.str "abcdefgh".data) 5).2.2 ⟨[], [], 5⟩ "t".data JVal.null
     (fun hc => JVal.noConfusion hc) rfl⟩

/-- Claim C10: the render-tool-use header carries the ` id=` suffix exactly
when the identifier value is truthy; in particular a missing (`None`)
identifier and an empty-string identifier both produce a bare header, while
any non-empty string identifier produces the suffix. -/
theorem tool_use_id_suffix (st : Printer) (name : Str) (input tid : JVal) :
    (Printer.on_tool_use st name input tid).out
      = (Printer.flush st).out
        ++ ('\n' :: ">>> tool_use ".data ++ name
            ++ (if truthy tid then " id=".data ++ pyStr tid else [])) ++ ['\n']
        ++ (match input with
            | JVal.null => []
            | _ => jsonCompact input st.tool_input_max ++ ['\n'])
    ∧ truthy JVal.null = false
    ∧ truthy (JVal.str []) = false
    ∧ ∀ (c : Char) (cs : Str), truthy (JVal.str (c :: cs)) = true := by
  refine ⟨?_, rfl, rfl, fun c cs => rfl⟩
  cases input <;>
    simp [Printer.on_tool_use, Printer.println, flush_max, List.append_assoc]

/-- Claim C6: processing the three example lines produces exactly the
standard-output lines `Hello world`, a blank line, `=== success ===`, and
`done`, and the run completes with exit status 0. -/
theorem end_to_end_example :
    mainRun 800
        ["\x7b\"type\":\"stream_event\",\"event\":\x7b\"delta\":\x7b\"type\":\"text_delta\",\"text\":\"Hello\"\x7d\x7d\x7d".data,
         "\x7b\"type\":\"stream_event\",\"event\":\x7b\"delta\":\x7b\"type\":\"text_delta\",\"text\":\" world\\n\"\x7d\x7d\x7d".data,
         "\x7b\"type\":\"result\",\"is_error\":false,\"result\":\"done\"\x7d".data]
      = .ok (⟨[], "Hello world\n\n=== success ===\ndone\n".data, 800⟩, 0)
    ∧ (splitChar '\n' "Hello world\n\n=== success ===\ndone\n".data).dropLast
      = ["Hello world".data, [], "=== success ===".data, "done".data] := by decide

/-- Claim C2 (amended): every input line that fails to decode, or decodes to
a dict whose relevant nested fields are well shaped (`safeLine`: in a
`stream_event` carrying a `text_delta` a truthy `text` is a string; in an
`assistant` record a truthy `message` is a dict and a truthy `content` is
iterable), is handled without raising, and a stream of such lines runs to
completion with exit status 0. -/
theorem dispatcher_no_crash_on_safe_lines (cfg : Int) (lines : List Str)
    (h : ∀ l ∈ lines, safeLine l = true) :
    ∃ st, mainRun cfg lines = .ok (st, 0) := by
  obtain ⟨st', hs⟩ := mainLoop_safe lines ⟨[], [], cfg⟩ h
  exact ⟨Printer.flush st', by simp [mainRun, hs]⟩

/-- Counterexample to claim C2 as stated: the well-formed JSON line `5` is
not an object and raises an uncaught `AttributeError`, and a `text_delta`
whose `text` is the number `5` raises an uncaught `TypeError`; in both cases
the process terminates abnormally instead of recovering. -/
theorem dispatcher_crash_cex :
    mainRun 800 ["5".data] = .error ⟨PyErr.attributeError, ⟨[], [], 800⟩⟩
    ∧ mainRun 800
        ["\x7b\"type\":\"stream_event\",\"event\":\x7b\"delta\":\x7b\"type\":\"text_delta\",\"text\":5\x7d\x7d\x7d".data]
      = .error ⟨PyErr.typeError, ⟨[], [], 800⟩⟩ := by decide

/-- Witness for the amended claim C2 on a concrete stream containing a
malformed line and a well-shaped record. -/
theorem dispatcher_no_crash_on_safe_lines_witness :
    (∀ l ∈ ["notjson".data, "\x7b\"type\":\"result\",\"result\":\"ok\"\x7d".data],
        safeLine l = true)
    ∧ ∃ st, mainRun 800 ["notjson".data, "\x7b\"type\":\"result\",\"result\":\"ok\"\x7d".data]
        = .ok (st, 0) :=
  ⟨by decide, dispatcher_no_crash_on_safe_lines 800 _ (by decide)⟩

/-- Claim C4 (amended): an input line that is non-blank after stripping and
whose stripped text fails JSON decoding causes a flush of any pending
buffered text followed by printing of the stripped line, and processing
returns normally, so the stream is not aborted. -/
theorem malformed_line_passthrough (st : Printer) (raw : Str)
    (h1 : pyStripWs raw ≠ []) (h2 : (json_loads (pyStripWs raw)).isNone = true) :
    processLine st raw = .ok ((Printer.flush st).println (pyStripWs raw))
    ∧ (Printer.flush st).println (pyStripWs raw)
      = ⟨[], (Printer.flush st).out ++ pyStripWs raw ++ ['\n'], st.tool_input_max⟩ := by
  constructor
  · have hn : json_loads (pyStripWs raw) = none := Option.isNone_iff_eq_none.mp h2
    simp [processLine, h1, hn]
  · simp [Printer.println, flush_buf, flush_max, Printer.mk.injEq]

/-- Counterexample to claim C4 as stated: the non-JSON line ` @` is printed
as `@`, the whitespace-stripped text, which differs from the raw line, so
the line is not passed through verbatim. -/
theorem malformed_line_passthrough_cex :
    processLine ⟨[], [], 800⟩ " @".data = .ok ⟨[], "@\n".data, 800⟩
    ∧ "@\n".data ≠ " @\n".data := by decide

/-- Witness for the amended claim C4 at a concrete line with pending
buffered text. -/
theorem malformed_line_passthrough_witness :
    (pyStripWs " @".data ≠ [] ∧ (json_loads (pyStripWs " @".data)).isNone = true)
    ∧ processLine ⟨"abc".data, [], 800⟩ " @".data
        = .ok ((Printer.flush ⟨"abc".data, [], 800⟩).println (pyStripWs " @".data)) :=
  ⟨⟨by decide, by decide⟩,
   (malformed_line_passthrough ⟨"abc".data, [], 800⟩ " @".data (by decide) (by decide)).1⟩

/-- Claim C8 (amended): the truncation limit is resolved once at startup:
when the override is unset the limit is the default 800 and the program
proceeds to stream processing; a non-numeric override aborts the process at
startup with a configuration parse fault, irrespective of the input
stream. -/
theorem config_startup_resolution (s : Str) (input : List Str)
    (h : pyIntParse s = none) :
    resolveToolInputMax none = .ok 800
    ∧ runProgram (some s) input = .error ()
    ∧ runProgram none input = .ok (mainRun 800 input) := by
  refine ⟨by decide, ?_, rfl⟩
  simp [runProgram, resolveToolInputMax, h]

/-- Counterexample to claim C8 as stated: with a valid (unset) configuration
the input line `5` still aborts the process through an uncaught exception,
so the startup configuration fault is not the only externally visible
failure mode and input-stream content can cause a failure. -/
theorem config_startup_resolution_cex :
    runProgram none ["5".data]
      = .ok (.error ⟨PyErr.attributeError, ⟨[], [], 800⟩⟩) := by decide

/-- Witness for the amended claim C8 at the non-numeric override `abc`. -/
theorem config_startup_resolution_witness :
    pyIntParse "abc".data = none
    ∧ (resolveToolInputMax none = .ok 800
        ∧ runProgram (some "abc".data) [] = .error ()
        ∧ runProgram none [] = .ok (mainRun 800 [])) :=
  ⟨by decide, config_startup_resolution "abc".data [] (by decide)⟩
